import Mathlib

/-!
Verification of the py-agterm terminal-driving engine (`src/py_agterm/AGTerm.py`)
against its natural-language specification.

Byte strings and decoded text are both modelled as `List Nat` (byte values
0..255 resp. Unicode code points).  Every definition is a direct shallow
embedding of the corresponding Python source construct; recursion that
consumes a computed number of elements is driven by an explicit fuel equal to
the list length so that all definitions reduce inside the kernel.
-/

namespace AGTerm

/-! ### The ANSI_RE byte regex

ANSI_RE is ESC followed by one of three alternatives: a single byte of the
class 0x40-0x5A or 0x5C-0x5F; a CSI body (an open bracket, then parameter
bytes 0x30-0x3F, then intermediate bytes 0x20-0x2F, then one final byte
0x40-0x7E); or an OSC body (a close bracket, digits, a semicolon, then a lazy
payload ended by BEL or by ESC backslash).

Python `re` tries the alternatives left to right, so the first class is
tested before the CSI and OSC branches.  Note that the close bracket
(0x5D) lies inside that first class. -/

/-- Membership in the character class `[@-Z\\-_]` (bytes 0x40-0x5A, 0x5C-0x5F). -/
def isEscOther (b : Nat) : Bool := decide ((64 ≤ b ∧ b ≤ 90) ∨ (92 ≤ b ∧ b ≤ 95))

/-- Byte class `[0-?]` (0x30-0x3F), the CSI parameter bytes. -/
def isCsiParam (b : Nat) : Bool := decide (48 ≤ b ∧ b ≤ 63)

/-- Byte class 0x20-0x2F (space to slash), the CSI intermediate bytes. -/
def isCsiInter (b : Nat) : Bool := decide (32 ≤ b ∧ b ≤ 47)

/-- Byte class `[@-~]` (0x40-0x7E), the CSI final bytes. -/
def isCsiFinal (b : Nat) : Bool := decide (64 ≤ b ∧ b ≤ 126)

/-- Match of the CSI body at the head of `rest` (the bytes after `ESC [`):
greedy runs of parameter and intermediate bytes followed by one final byte.
Returns the number of bytes consumed.  The parameter and intermediate classes
are disjoint from the final class, so greedy matching without backtracking
coincides with Python's backtracking semantics. -/
def csiTail (rest : List Nat) : Option Nat :=
  let p := (rest.takeWhile isCsiParam).length
  let r1 := rest.drop p
  let q := (r1.takeWhile isCsiInter).length
  match r1.drop q with
  | [] => none
  | f :: _ => if isCsiFinal f then some (p + q + 1) else none

/-- Match of the lazy `[\s\S]*?(?:\x07|\x1b\\)` at the head of the list: the
shortest payload ended by BEL or by `ESC \`.  Returns payload+terminator
length.  (Unreachable from `ansiMatch` in practice, because the close
bracket already matches the first alternative; embedded for fidelity to the
written pattern.) -/
def oscBody : List Nat → Option Nat
  | [] => none
  | c :: rest =>
    if c = 7 then some 1
    else if c = 27 ∧ rest.head? = some 92 then some 2
    else (oscBody rest).map (fun n => n + 1)

/-- Match of `[0-9]*;` followed by `oscBody` at the head of `rest` (the bytes
after `ESC ]`).  Returns the number of bytes consumed. -/
def oscTail (rest : List Nat) : Option Nat :=
  let d := (rest.takeWhile (fun b => decide (48 ≤ b ∧ b ≤ 57))).length
  match rest.drop d with
  | [] => none
  | sc :: r2 => if sc = 59 then (oscBody r2).map (fun n => d + 1 + n) else none

/-- One attempted match of `ANSI_RE` at the head of the list, returning the
length of the match.  Alternatives are tried in the pattern's left-to-right
order, as Python `re` does. -/
def ansiMatch : List Nat → Option Nat
  | e :: b :: rest =>
    if e = 27 then
      if isEscOther b then some 2
      else if b = 91 then (csiTail rest).map (fun n => n + 2)
      else if b = 93 then (oscTail rest).map (fun n => n + 2)
      else none
    else none
  | _ => none

/-- Worker for `ansiSub`: scan left to right, removing each non-overlapping
leftmost match, resuming after the removed bytes (the semantics of
`re.sub(pattern, b"", data)`).  All matches have length at least 2, so
dropping `n - 1` bytes of the tail advances past the match. -/
def ansiSubGo : Nat → List Nat → List Nat
  | 0, s => s
  | _ + 1, [] => []
  | fuel + 1, b :: rest =>
    match ansiMatch (b :: rest) with
    | some n => ansiSubGo fuel (rest.drop (n - 1))
    | none => b :: ansiSubGo fuel rest

/-- `ANSI_RE.sub(b"", data)` from `AGTerm._sanitize`. -/
def ansiSub (s : List Nat) : List Nat := ansiSubGo s.length s

/-! ### UTF-8 decoding with `errors="replace"`

`bytes.decode("utf-8", errors="replace")` replaces every maximal subpart of
an ill-formed sequence with U+FFFD, per the Unicode recommendation. -/

/-- Continuation byte test `0x80..0xBF`. -/
def isCont (b : Nat) : Bool := decide (128 ≤ b ∧ b ≤ 191)

/-- Decode one scalar starting at lead byte `b` with following bytes `rest`.
Returns the code point and how many bytes of `rest` were additionally
consumed; ill-formed input yields U+FFFD (= 65533) after consuming the
maximal well-formed prefix of a sequence. -/
def utf8Step (b : Nat) (rest : List Nat) : Nat × Nat :=
  if b ≤ 127 then (b, 0)
  else if 194 ≤ b ∧ b ≤ 223 then
    match rest with
    | [] => (65533, 0)
    | c1 :: _ =>
      if isCont c1 then ((b - 192) * 64 + (c1 - 128), 1) else (65533, 0)
  else if 224 ≤ b ∧ b ≤ 239 then
    match rest with
    | [] => (65533, 0)
    | c1 :: rest1 =>
      if (if b = 224 then 160 else 128) ≤ c1 ∧ c1 ≤ (if b = 237 then 159 else 191) then
        match rest1 with
        | [] => (65533, 1)
        | c2 :: _ =>
          if isCont c2 then ((b - 224) * 4096 + (c1 - 128) * 64 + (c2 - 128), 2)
          else (65533, 1)
      else (65533, 0)
  else if 240 ≤ b ∧ b ≤ 244 then
    match rest with
    | [] => (65533, 0)
    | c1 :: rest1 =>
      if (if b = 240 then 144 else 128) ≤ c1 ∧ c1 ≤ (if b = 244 then 143 else 191) then
        match rest1 with
        | [] => (65533, 1)
        | c2 :: rest2 =>
          if isCont c2 then
            match rest2 with
            | [] => (65533, 2)
            | c3 :: _ =>
              if isCont c3 then
                ((b - 240) * 262144 + (c1 - 128) * 4096 + (c2 - 128) * 64 + (c3 - 128), 3)
              else (65533, 2)
          else (65533, 1)
      else (65533, 0)
  else (65533, 0)

/-- Worker for `utf8Decode`. -/
def utf8DecodeGo : Nat → List Nat → List Nat
  | 0, _ => []
  | _ + 1, [] => []
  | fuel + 1, b :: rest =>
    (utf8Step b rest).1 :: utf8DecodeGo fuel (rest.drop (utf8Step b rest).2)

/-- `clean.decode("utf-8", errors="replace")` from `AGTerm._sanitize`. -/
def utf8Decode (s : List Nat) : List Nat := utf8DecodeGo s.length s

/-- UTF-8 encoding of one code point (`str.encode()` per character). -/
def utf8EncodeChar (c : Nat) : List Nat :=
  if c ≤ 127 then [c]
  else if c ≤ 2047 then [192 + c / 64, 128 + c % 64]
  else if c ≤ 65535 then [224 + c / 4096, 128 + c / 64 % 64, 128 + c % 64]
  else [240 + c / 262144, 128 + c / 4096 % 64, 128 + c / 64 % 64, 128 + c % 64]

/-- `str.encode()`: UTF-8 encoding of a string. -/
def utf8Encode : List Nat → List Nat
  | [] => []
  | c :: rest => utf8EncodeChar c ++ utf8Encode rest

/-! ### Newline normalisation and artifact removal -/

/-- `text.replace("\r\n", "\n")`: leftmost non-overlapping replacement of
each CR LF pair by LF. -/
def replaceCRLF : List Nat → List Nat
  | [] => []
  | [c] => [c]
  | c :: c2 :: rest2 =>
    if c = 13 ∧ c2 = 10 then 10 :: replaceCRLF rest2
    else c :: replaceCRLF (c2 :: rest2)

/-- `text.replace("\r", "\n")` applied per character. -/
def crToLf (c : Nat) : Nat := if c = 13 then 10 else c

/-- The specification's line-ending normalisation: each CR LF pair and each
bare CR becomes a single LF. -/
def newlineSpec : List Nat → List Nat
  | [] => []
  | [c] => [crToLf c]
  | c :: c2 :: rest2 =>
    if c = 13 ∧ c2 = 10 then 10 :: newlineSpec rest2
    else crToLf c :: newlineSpec (c2 :: rest2)

/-- Match of the lazy `.*?\x07` at the head of the list: shortest run of
non-newline characters ended by BEL.  `.` does not match LF. -/
def artTerm : List Nat → Option Nat
  | [] => none
  | c :: rest =>
    if c = 7 then some 1
    else if c = 10 then none
    else (artTerm rest).map (fun n => n + 1)

/-- One attempted match of `133;[A-Z];.*?\x07` at the head of the list,
returning the match length. -/
def artMatch : List Nat → Option Nat
  | a :: b :: c :: d :: u :: e :: rest =>
    if a = 49 ∧ b = 51 ∧ c = 51 ∧ d = 59 ∧ 65 ≤ u ∧ u ≤ 90 ∧ e = 59 then
      (artTerm rest).map (fun n => n + 6)
    else none
  | _ => none

/-- Worker for `artSub` (semantics of `re.sub` as in `ansiSubGo`; every
match has length at least 7). -/
def artSubGo : Nat → List Nat → List Nat
  | 0, s => s
  | _ + 1, [] => []
  | fuel + 1, c :: rest =>
    match artMatch (c :: rest) with
    | some n => artSubGo fuel (rest.drop (n - 1))
    | none => c :: artSubGo fuel rest

/-- `re.sub(r"133;[A-Z];.*?\x07", "", text)` from `AGTerm._sanitize`. -/
def artSub (s : List Nat) : List Nat := artSubGo s.length s

/-- The final filter `ch >= " " or ch in "\n\t"` of `AGTerm._sanitize`. -/
def isKeep (c : Nat) : Bool := decide (32 ≤ c ∨ c = 10 ∨ c = 9)

/-- `"".join(ch for ch in text if (ch >= " " or ch in "\n\t"))`. -/
def keepPrintable (s : List Nat) : List Nat := s.filter isKeep

/-- `AGTerm._sanitize(data)`: strip ANSI/OSC metadata, decode UTF-8 with
replacement, normalise line endings, remove leaked shell-integration
artifacts, and drop remaining control characters other than LF and HT. -/
def sanitize (data : List Nat) : List Nat :=
  if data = [] then []
  else keepPrintable (artSub (List.map crToLf (replaceCRLF (utf8Decode (ansiSub data)))))

/-! ### Substring search (Python `m in current_text`) -/

/-- `s` starts with `p`. -/
def startsWith : List Nat → List Nat → Bool
  | [], _ => true
  | _ :: _, [] => false
  | a :: p, b :: s => a == b && startsWith p s

/-- Python substring containment `p in s`. -/
def isSubstr (p : List Nat) : List Nat → Bool
  | [] => p.isEmpty
  | b :: rest => startsWith p (b :: rest) || isSubstr p rest

/-! ### Ready-wait engine (`AGTerm.read_until_ready`)

One iteration of the wait loop, as a pure function of the consumable buffer,
the remaining time before the deadline, and the liveness observation.  The
loop body checks, in source order: marker containment in the sanitized
buffer, deadline expiry, process liveness, and otherwise waits on the
condition variable. -/

/-- Outcome of one iteration of the `read_until_ready` loop. -/
inductive StepResult where
  /-- A marker matched: the sanitized text is returned, the buffer cleared. -/
  | ret (text newBuf : List Nat)
  /-- Deadline expired: `PtyTimeoutError` carrying the diagnostic tail;
  the buffer is left as it was. -/
  | timedOut (diag buf : List Nat)
  /-- `PtyError("Subprocess died")`; the buffer is left as it was. -/
  | died (buf : List Nat)
  /-- Wait on the condition variable and re-evaluate. -/
  | wait (buf : List Nat)
deriving DecidableEq

/-- The `for m in self.markers: if m in current_text` scan - `List.find?`
mirrors the first-match-in-list-order semantics of the source loop. -/
def rurScan (markers : List (List Nat)) (t : List Nat) : Option (List Nat) :=
  markers.find? (fun m => isSubstr m t)

/-- The diagnostic tail `last_output[-150:]` carried by `PtyTimeoutError`. -/
def diagTail (t : List Nat) : List Nat := t.drop (t.length - 150)

/-- One iteration of the `read_until_ready` loop body (`current_text` is
the sanitized buffer). -/
def rurStep (markers : List (List Nat)) (buf : List Nat) (remaining : Int)
    (alive : Bool) : StepResult :=
  match rurScan markers (sanitize buf) with
  | some _ => .ret (sanitize buf) []
  | none =>
    if remaining ≤ 0 then .timedOut (diagTail (sanitize buf)) buf
    else if alive = false then .died buf
    else .wait buf

/-! ### Session state, liveness and close (`AGTerm.is_alive`, `AGTerm.close`) -/

/-- The session fields consulted by `is_alive`, `close` and the reader loop. -/
structure TermState where
  /-- The consumable output buffer `self.buffer`. -/
  buffer : List Nat
  /-- The rolling history `self.history`. -/
  history : List Nat
  /-- `self._running`. -/
  running : Bool
  /-- `self.proc is not None`. -/
  procSome : Bool
  /-- `self.proc.poll() is None` (the child has not exited). -/
  pollNone : Bool
  /-- `self.master_fd is not None`. -/
  masterFd : Bool
deriving DecidableEq

/-- `AGTerm.is_alive`: `self._running and self.proc and self.proc.poll() is None`. -/
def isAlive (s : TermState) : Bool := s.running && s.procSome && s.pollNone

/-- `AGTerm.close`: clears `_running`, force-kills the process group
(best effort), closes the master descriptor and sets it to `None`, and joins
the reader thread.  The buffer and history are not touched. -/
def closeSession (s : TermState) : TermState :=
  { s with running := false, masterFd := false }

/-! ### Reader-loop history append and trim (`AGTerm._reader_loop`) -/

/-- Python tail slice `h[-k:]`: for `k = 0` this is `h[0:]`, the whole list;
for `k > 0` it is the last `min(k, len(h))` elements. -/
def pyTailSlice (k : Nat) (h : List Nat) : List Nat :=
  if k = 0 then h else h.drop (h.length - k)

/-- One reader-loop history update: `self.history.extend(chunk)` followed by
`if len(self.history) > self.max_history: self.history = self.history[-self.max_history:]`. -/
def readerAppendTrim (maxHistory : Nat) (history chunk : List Nat) : List Nat :=
  let h := history ++ chunk
  if maxHistory < h.length then pyTailSlice maxHistory h else h

/-! ### Writer (`AGTerm.write`, `AGTerm.send_control`) -/

/-- Python whitespace (`str.rstrip` with no argument strips exactly the
characters for which `str.isspace` holds). -/
def isPySpace (c : Nat) : Bool :=
  decide (c = 32 ∨ (9 ≤ c ∧ c ≤ 13) ∨ (28 ≤ c ∧ c ≤ 31) ∨ c = 133 ∨ c = 160 ∨
    c = 5760 ∨ (8192 ≤ c ∧ c ≤ 8202) ∨ c = 8232 ∨ c = 8233 ∨ c = 8239 ∨
    c = 8287 ∨ c = 12288)

/-- `text.rstrip()`: remove trailing whitespace. -/
def rstrip (s : List Nat) : List Nat := (s.reverse.dropWhile isPySpace).reverse

/-- The bytes `AGTerm.write` hands to `os.write` when the master descriptor
is open: `(text.rstrip() + "\n").encode()`. -/
def writeBytes (text : List Nat) : List Nat := utf8Encode (rstrip text ++ [10])

/-- Every code point whose Python `str.upper()` expands to more than one
character, with its full-casing expansion (the complete table, Unicode 15). -/
def upperMulti : List (Nat × List Nat) := [
  (223, [83,83]), (329, [700,78]), (496, [74,780]), (912, [921,776,769]),
  (944, [933,776,769]), (1415, [1333,1362]), (7830, [72,817]), (7831, [84,776]),
  (7832, [87,778]), (7833, [89,778]), (7834, [65,702]), (8016, [933,787]),
  (8018, [933,787,768]), (8020, [933,787,769]), (8022, [933,787,834]), (8064, [7944,921]),
  (8065, [7945,921]), (8066, [7946,921]), (8067, [7947,921]), (8068, [7948,921]),
  (8069, [7949,921]), (8070, [7950,921]), (8071, [7951,921]), (8072, [7944,921]),
  (8073, [7945,921]), (8074, [7946,921]), (8075, [7947,921]), (8076, [7948,921]),
  (8077, [7949,921]), (8078, [7950,921]), (8079, [7951,921]), (8080, [7976,921]),
  (8081, [7977,921]), (8082, [7978,921]), (8083, [7979,921]), (8084, [7980,921]),
  (8085, [7981,921]), (8086, [7982,921]), (8087, [7983,921]), (8088, [7976,921]),
  (8089, [7977,921]), (8090, [7978,921]), (8091, [7979,921]), (8092, [7980,921]),
  (8093, [7981,921]), (8094, [7982,921]), (8095, [7983,921]), (8096, [8040,921]),
  (8097, [8041,921]), (8098, [8042,921]), (8099, [8043,921]), (8100, [8044,921]),
  (8101, [8045,921]), (8102, [8046,921]), (8103, [8047,921]), (8104, [8040,921]),
  (8105, [8041,921]), (8106, [8042,921]), (8107, [8043,921]), (8108, [8044,921]),
  (8109, [8045,921]), (8110, [8046,921]), (8111, [8047,921]), (8114, [8122,921]),
  (8115, [913,921]), (8116, [902,921]), (8118, [913,834]), (8119, [913,834,921]),
  (8124, [913,921]), (8130, [8138,921]), (8131, [919,921]), (8132, [905,921]),
  (8134, [919,834]), (8135, [919,834,921]), (8140, [919,921]), (8146, [921,776,768]),
  (8147, [921,776,769]), (8150, [921,834]), (8151, [921,776,834]), (8162, [933,776,768]),
  (8163, [933,776,769]), (8164, [929,787]), (8166, [933,834]), (8167, [933,776,834]),
  (8178, [8186,921]), (8179, [937,921]), (8180, [911,921]), (8182, [937,834]),
  (8183, [937,834,921]), (8188, [937,921]), (64256, [70,70]), (64257, [70,73]),
  (64258, [70,76]), (64259, [70,70,73]), (64260, [70,70,76]), (64261, [83,84]),
  (64262, [83,84]), (64275, [1348,1350]), (64276, [1348,1333]), (64277, [1348,1339]),
  (64278, [1358,1350]), (64279, [1348,1341])]

/-- `char.upper()` for a one-character string, as a list of code points.
The table covers the ASCII letters, the only two code points whose
uppercase is a single ASCII capital without being an ASCII letter
themselves (U+0131 dotless i and U+017F long s, both found by scanning all
of Unicode), and, via `upperMulti`, every code point whose uppercase
expands to more than one character.  Every remaining code point keeps the
identity used here only up to `send_control`'s branching: its real
uppercase is a single character that lies in A-Z exactly when the code
point itself does, so the observable outcome of `send_control` is the same. -/
def pyUpper (c : Nat) : List Nat :=
  if 97 ≤ c ∧ c ≤ 122 then [c - 32]
  else if c = 305 then [73]
  else if c = 383 then [83]
  else match upperMulti.find? (fun p => p.1 == c) with
    | some p => p.2
    | none => [c]

/-- Python string comparison `s <= t`: lexicographic over code points. -/
def pyStrLe : List Nat → List Nat → Bool
  | [], _ => true
  | _ :: _, [] => false
  | a :: s, b :: t => if a < b then true else if a = b then pyStrLe s t else false

/-- The observable outcome of `AGTerm.send_control`. -/
inductive ControlSend where
  /-- `os.write` of the single control byte `b`. -/
  | byte (b : Nat)
  /-- The range check failed: nothing is written, no error. -/
  | silent
  /-- `ord()` was applied to a string whose length is not one and raised
  `TypeError`. -/
  | typeError
deriving DecidableEq

/-- `AGTerm.send_control`: uppercase the character, compare the resulting
string against the strings A and Z, and on success write the byte
`ord(char) - ord("A") + 1` - where `ord` raises for a multi-character
uppercasing. -/
def sendControl (c : Nat) : ControlSend :=
  if pyStrLe [65] (pyUpper c) && pyStrLe (pyUpper c) [90] then
    match pyUpper c with
    | [x] => .byte (x - 65 + 1)
    | _ => .typeError
  else .silent

/-- A Unicode control character (category Cc): the C0 range, DEL, and the
C1 range. -/
def isCtrlChar (c : Nat) : Bool := decide (c < 32 ∨ c = 127 ∨ (128 ≤ c ∧ c ≤ 159))

/-- A Unicode scalar value: below 0x110000 and not a surrogate. -/
def ScalarCP (c : Nat) : Prop := c < 1114112 ∧ (c < 55296 ∨ 57343 < c)

end AGTerm

namespace AGTerm

/-! ## Theorems -/

/-- C1: the claim fails on the code.  On the OSC sequence ESC ] 0 ; t BEL the
sanitizer removes only the two introducer bytes, keeps the payload text
`0;t`, and merely loses the BEL to the control-character filter - because
the close-bracket byte 0x5D already matches the first alternative of
ANSI_RE, so every ESC ] is consumed as a two-byte escape and the OSC
alternative of the pattern can never be reached. -/
theorem osc_payload_survives :
    sanitize [27, 93, 48, 59, 116, 7] = [48, 59, 116] ∧
    ∀ rest : List Nat, ansiMatch (27 :: 93 :: rest) = some 2 := by
  constructor
  · decide
  · intro rest
    rfl

/-- C4 counterexample: with `max_history = 0`, one append of a single byte
leaves the history at length 1, exceeding the cap - Python's trim slice
`history[-0:]` is `history[0:]`, the whole history, so a zero cap never
trims. -/
theorem history_cap_zero_cex : ¬ (readerAppendTrim 0 [] [65]).length ≤ 0 := by
  decide

/-- C4 (amended to positive caps): for every cap of at least one byte, an
append-and-trim step always leaves the history equal to the most recent
`cap`-byte suffix of the appended data, so its size never exceeds the cap
and only the oldest bytes are dropped. -/
theorem history_cap_bound (cap : Nat) (hcap : 1 ≤ cap) (history chunk : List Nat) :
    readerAppendTrim cap history chunk
      = (history ++ chunk).drop ((history ++ chunk).length - cap) ∧
    (readerAppendTrim cap history chunk).length ≤ cap ∧
    readerAppendTrim cap history chunk <:+ (history ++ chunk) := by
  unfold readerAppendTrim pyTailSlice
  by_cases hlt : cap < (history ++ chunk).length
  · rw [if_pos hlt, if_neg (by omega)]
    refine ⟨rfl, ?_, List.drop_suffix _ _⟩
    rw [List.length_drop]
    omega
  · rw [if_neg hlt]
    have hz : (history ++ chunk).length - cap = 0 := by omega
    rw [hz, List.drop_zero]
    exact ⟨rfl, by omega, List.suffix_refl _⟩

/-- Witness for `history_cap_bound` at cap 1. -/
theorem history_cap_bound_witness :
    readerAppendTrim 1 [65] [66] = ([65] ++ [66]).drop (([65] ++ [66]).length - 1) ∧
    (readerAppendTrim 1 [65] [66]).length ≤ 1 ∧
    readerAppendTrim 1 [65] [66] <:+ ([65] ++ [66]) :=
  history_cap_bound 1 (by decide) [65] [66]

/-- C5 counterexample: DEL (0x7F) is a control character other than LF and
HT, yet it survives sanitization - the final filter keeps every character
at or above the space character. -/
theorem sanitize_del_cex :
    127 ∈ sanitize [127] ∧ isCtrlChar 127 = true ∧ 127 ≠ 10 ∧ 127 ≠ 9 := by
  decide

/-- C5 (amended to the C0 range): sanitized output contains no ESC and no
character below the space character other than LF and HT; DEL and the C1
controls can remain. -/
theorem sanitize_no_c0 (x : List Nat) (c : Nat) (hc : c ∈ sanitize x) :
    c ≠ 27 ∧ (c < 32 → c = 10 ∨ c = 9) := by
  unfold sanitize at hc
  by_cases hx : x = []
  · rw [if_pos hx] at hc
    exact absurd hc (List.not_mem_nil c)
  · rw [if_neg hx] at hc
    have hk := List.of_mem_filter hc
    simp only [isKeep, decide_eq_true_eq] at hk
    omega

/-- Witness for `sanitize_no_c0`. -/
theorem sanitize_no_c0_witness : 65 ≠ 27 ∧ (65 < 32 → 65 = 10 ∨ 65 = 9) :=
  sanitize_no_c0 [65] 65 (by decide)

/-- Comparing one-character strings is comparing their code points. -/
theorem pyStrLe_singleton (a b : Nat) : pyStrLe [a] [b] = decide (a ≤ b) := by
  unfold pyStrLe
  by_cases h1 : a < b
  · rw [if_pos h1]
    have : a ≤ b := by omega
    simp [this]
  · rw [if_neg h1]
    by_cases h2 : a = b
    · rw [if_pos h2]
      unfold pyStrLe
      simp [h2]
    · rw [if_neg h2]
      have : ¬ a ≤ b := by omega
      simp [this]

/-- C10 counterexample: the claim's silent no-op fails at the sharp s
(U+00DF).  Its uppercase is the two-character string SS, which the string
comparison places between A and Z, so `ord` is applied to a two-character
string and raises `TypeError` - `send_control` neither writes a byte nor
stays silent. -/
theorem send_control_eszett_cex :
    pyUpper 223 = [83, 83] ∧ sendControl 223 = ControlSend.typeError ∧
    sendControl 223 ≠ ControlSend.silent := by
  decide

/-- C10 (amended): `send_control` uppercases its argument with the full
Python case mapping; when the result is a single character between A and Z
it writes the byte of the letter's 1-indexed alphabet position, when the
result compares outside the A-to-Z range it writes nothing at all, but
when the result is a multi-character expansion that still compares within
the range the call raises `TypeError` from `ord` instead of staying
silent.  In particular the letters c and C both send byte 3, the dotless i
(U+0131, uppercase I) sends byte 9, the long s (U+017F, uppercase S) sends
byte 19, and the sharp s (U+00DF, uppercase SS) raises. -/
theorem send_control_byte :
    (∀ c u, pyUpper c = [u] → 65 ≤ u → u ≤ 90 → sendControl c = .byte (u - 64)) ∧
    (∀ c u, pyUpper c = [u] → ¬ (65 ≤ u ∧ u ≤ 90) → sendControl c = .silent) ∧
    (∀ c x y rest, pyUpper c = x :: y :: rest →
      pyStrLe [65] (x :: y :: rest) = true → pyStrLe (x :: y :: rest) [90] = true →
      sendControl c = .typeError) ∧
    sendControl 99 = .byte 3 ∧ sendControl 67 = .byte 3 ∧
    sendControl 305 = .byte 9 ∧ sendControl 383 = .byte 19 ∧
    sendControl 223 = .typeError := by
  refine ⟨?_, ?_, ?_, by decide, by decide, by decide, by decide, by decide⟩
  · intro c u h h1 h2
    unfold sendControl
    rw [h, pyStrLe_singleton, pyStrLe_singleton]
    have hc : (decide (65 ≤ u) && decide (u ≤ 90)) = true := by
      simp only [Bool.and_eq_true, decide_eq_true_eq]
      omega
    rw [hc, if_pos rfl]
    simp only [ControlSend.byte.injEq]
    omega
  · intro c u h hu
    unfold sendControl
    rw [h, pyStrLe_singleton, pyStrLe_singleton]
    have hc : (decide (65 ≤ u) && decide (u ≤ 90)) = false := by
      simp only [Bool.and_eq_false_iff, decide_eq_false_iff_not]
      omega
    rw [hc, if_neg Bool.false_ne_true]
  · intro c x y rest h hle1 hle2
    unfold sendControl
    rw [h, hle1, hle2, Bool.and_self, if_pos rfl]

/-- Reduction of the loop body when a marker matched. -/
theorem rurStep_some (markers : List (List Nat)) (buf m : List Nat)
    (r : Int) (alive : Bool) (h : rurScan markers (sanitize buf) = some m) :
    rurStep markers buf r alive = .ret (sanitize buf) [] := by
  unfold rurStep
  rw [h]

/-- Reduction of the loop body when no marker matched. -/
theorem rurStep_none (markers : List (List Nat)) (buf : List Nat)
    (r : Int) (alive : Bool) (h : rurScan markers (sanitize buf) = none) :
    rurStep markers buf r alive
      = if r ≤ 0 then .timedOut (diagTail (sanitize buf)) buf
        else if alive = false then .died buf else .wait buf := by
  unfold rurStep
  rw [h]

/-- The marker scan finds the first matching marker in list order. -/
theorem rurScan_first (pre post : List (List Nat)) (m t : List Nat)
    (hpre : ∀ p ∈ pre, isSubstr p t = false) (hm : isSubstr m t = true) :
    rurScan (pre ++ m :: post) t = some m := by
  induction pre with
  | nil =>
    unfold rurScan
    rw [List.nil_append]
    exact @List.find?_cons_of_pos _ (fun q => isSubstr q t) m post hm
  | cons p pre ih =>
    have hp : isSubstr p t = false := hpre p (List.mem_cons_self p pre)
    unfold rurScan at ih ⊢
    rw [List.cons_append,
      @List.find?_cons_of_neg _ (fun q => isSubstr q t) p (pre ++ m :: post) (by simp [hp])]
    exact ih (fun q hq => hpre q (List.mem_cons_of_mem p hq))

/-- C2: when the sanitized buffer already contains a marker, the loop body
returns at once - for every remaining time and every liveness observation
it never reaches the deadline check, the liveness check, or the condition
wait - yielding the sanitized text, which contains the marker, and clearing
the buffer; the marker that triggers the return is the first match in the
configured marker-list order. -/
theorem read_ready_immediate (pre post : List (List Nat)) (m buf : List Nat)
    (r : Int) (alive : Bool)
    (hpre : ∀ p ∈ pre, isSubstr p (sanitize buf) = false)
    (hm : isSubstr m (sanitize buf) = true) :
    rurScan (pre ++ m :: post) (sanitize buf) = some m ∧
    rurStep (pre ++ m :: post) buf r alive = .ret (sanitize buf) [] ∧
    isSubstr m (sanitize buf) = true := by
  have hscan := rurScan_first pre post m (sanitize buf) hpre hm
  exact ⟨hscan, rurStep_some _ _ _ r alive hscan, hm⟩

/-- Witness for `read_ready_immediate`: a buffer holding the prompt bytes
of the default marker. -/
theorem read_ready_immediate_witness :
    rurScan ([] ++ [36, 32] :: []) (sanitize [36, 32]) = some [36, 32] ∧
    rurStep ([] ++ [36, 32] :: []) [36, 32] (-3) false = .ret (sanitize [36, 32]) [] ∧
    isSubstr [36, 32] (sanitize [36, 32]) = true :=
  read_ready_immediate [] [] [36, 32] [36, 32] (-3) false
    (by intro p hp; exact absurd hp (List.not_mem_nil p)) (by decide)

/-- C3: when no marker matches and the deadline has passed, the loop body
raises the timeout error; the diagnostic it carries is the sanitized
buffer's suffix of at most 150 characters, and the consumable buffer is
left exactly as it was. -/
theorem read_timeout_diag (markers : List (List Nat)) (buf : List Nat)
    (r : Int) (alive : Bool)
    (hnone : rurScan markers (sanitize buf) = none) (hr : r ≤ 0) :
    rurStep markers buf r alive = .timedOut (diagTail (sanitize buf)) buf ∧
    diagTail (sanitize buf) <:+ sanitize buf ∧
    (diagTail (sanitize buf)).length ≤ 150 := by
  refine ⟨?_, List.drop_suffix _ _, ?_⟩
  · rw [rurStep_none _ _ _ _ hnone, if_pos hr]
  · unfold diagTail
    rw [List.length_drop]
    omega

/-- Witness for `read_timeout_diag`: prompt marker absent, remaining time
zero. -/
theorem read_timeout_diag_witness :
    rurStep [[36, 32]] [104, 105] 0 true
      = .timedOut (diagTail (sanitize [104, 105])) [104, 105] ∧
    diagTail (sanitize [104, 105]) <:+ sanitize [104, 105] ∧
    (diagTail (sanitize [104, 105])).length ≤ 150 :=
  read_timeout_diag [[36, 32]] [104, 105] 0 true (by decide) (by decide)

/-- C7: after `close`, `is_alive` reports false (the `_running` flag has
been cleared), and a loop iteration with remaining time and no marker in
the buffer raises the process-died error instead of waiting out the
timeout. -/
theorem close_then_dead (s : TermState) (markers : List (List Nat)) (r : Int)
    (hr : 0 < r)
    (hnone : rurScan markers (sanitize (closeSession s).buffer) = none) :
    isAlive (closeSession s) = false ∧
    rurStep markers (closeSession s).buffer r (isAlive (closeSession s))
      = .died (closeSession s).buffer := by
  have halive : isAlive (closeSession s) = false := by
    simp [isAlive, closeSession]
  refine ⟨halive, ?_⟩
  rw [rurStep_none _ _ _ _ hnone, if_neg (by omega), halive, if_pos rfl]

/-- Witness for `close_then_dead`: a freshly running session with an empty
buffer, closed, then polled with one second remaining. -/
theorem close_then_dead_witness :
    isAlive (closeSession ⟨[], [], true, true, true, true⟩) = false ∧
    rurStep [[36, 32]] (closeSession ⟨[], [], true, true, true, true⟩).buffer 1
        (isAlive (closeSession ⟨[], [], true, true, true, true⟩))
      = .died (closeSession ⟨[], [], true, true, true, true⟩).buffer :=
  close_then_dead ⟨[], [], true, true, true, true⟩ [[36, 32]] 1 (by decide) (by decide)

/-- C8: the two-stage replacement of the source (first CR LF pairs, then
remaining CRs) coincides with the specification's normalisation in which
every CR LF pair and every bare CR each become exactly one LF; consequently
the sanitizer is the same pipeline with that normalisation in the middle. -/
theorem crlf_normalization :
    (∀ s, List.map crToLf (replaceCRLF s) = newlineSpec s) ∧
    (∀ x, sanitize x = if x = [] then []
      else keepPrintable (artSub (newlineSpec (utf8Decode (ansiSub x))))) := by
  have hnorm : ∀ s, List.map crToLf (replaceCRLF s) = newlineSpec s := by
    intro s
    induction s using replaceCRLF.induct with
    | case1 => rfl
    | case2 c => simp [replaceCRLF, newlineSpec]
    | case3 c c2 rest2 h ih =>
      simp only [replaceCRLF, newlineSpec, if_pos h, List.map_cons, ih,
        List.cons.injEq, and_true]
      simp [crToLf]
    | case4 c c2 rest2 h ih =>
      simp [replaceCRLF, newlineSpec, if_neg h, ih]
  refine ⟨hnorm, fun x => ?_⟩
  unfold sanitize
  rw [hnorm]

/-- C9 helper: UTF-8 encoding distributes over append. -/
theorem utf8Encode_append (l1 l2 : List Nat) :
    utf8Encode (l1 ++ l2) = utf8Encode l1 ++ utf8Encode l2 := by
  induction l1 with
  | nil => rfl
  | cons c l1 ih => simp [utf8Encode, ih]

/-- The head of `dropWhile p` does not satisfy `p`. -/
theorem head_dropWhile_false (p : Nat → Bool) (l : List Nat) (x : Nat)
    (h : (l.dropWhile p).head? = some x) : p x = false := by
  induction l with
  | nil => simp [List.dropWhile] at h
  | cons a l ih =>
    by_cases ha : p a
    · rw [List.dropWhile_cons_of_pos ha] at h
      exact ih h
    · rw [List.dropWhile_cons_of_neg ha] at h
      simp only [List.head?_cons, Option.some.injEq] at h
      subst h
      exact Bool.eq_false_iff.mpr ha

/-- C9: `write` sends exactly the UTF-8 bytes of the text with its trailing
whitespace removed, followed by exactly one LF byte; `rstrip` removes a
whitespace-only tail and leaves a text that does not end in whitespace. -/
theorem write_trailing_newline (text : List Nat) :
    writeBytes text = utf8Encode (rstrip text) ++ [10] ∧
    (∃ w, text = rstrip text ++ w ∧ ∀ c ∈ w, isPySpace c = true) ∧
    (∀ c, (rstrip text).getLast? = some c → isPySpace c = false) := by
  refine ⟨?_, ?_, ?_⟩
  · unfold writeBytes
    rw [utf8Encode_append]
    rfl
  · refine ⟨(text.reverse.takeWhile isPySpace).reverse, ?_, ?_⟩
    · unfold rstrip
      conv_lhs => rw [← text.reverse_reverse,
        ← List.takeWhile_append_dropWhile isPySpace text.reverse]
      rw [List.reverse_append]
    · intro c hc
      rw [List.mem_reverse] at hc
      exact List.mem_takeWhile_imp hc
  · intro c hc
    unfold rstrip at hc
    rw [List.getLast?_reverse] at hc
    exact head_dropWhile_false _ _ _ hc

/-- Witness for `write_trailing_newline` on the text `hi` followed by a
space and a tab. -/
theorem write_trailing_newline_witness :
    writeBytes [104, 105, 32, 9] = utf8Encode (rstrip [104, 105, 32, 9]) ++ [10] :=
  (write_trailing_newline [104, 105, 32, 9]).1

/-! ### Idempotence of the sanitizer (C6) -/

/-- ANSI_RE can only match at an ESC byte. -/
theorem ansiMatch_none (b : Nat) (rest : List Nat) (hb : b ≠ 27) :
    ansiMatch (b :: rest) = none := by
  cases rest with
  | nil => rfl
  | cons c r =>
    simp only [ansiMatch]
    rw [if_neg hb]

/-- Stripping ANSI sequences from ESC-free input changes nothing. -/
theorem ansiSubGo_id (fuel : Nat) (s : List Nat) (h : 27 ∉ s) :
    ansiSubGo fuel s = s := by
  induction fuel generalizing s with
  | zero => rfl
  | succ fuel ih =>
    cases s with
    | nil => rfl
    | cons b rest =>
      have hb : b ≠ 27 := fun hb => h (hb ▸ List.mem_cons_self b rest)
      unfold ansiSubGo
      rw [ansiMatch_none b rest hb]
      exact congrArg (b :: ·) (ih rest (fun hm => h (List.mem_cons_of_mem b hm)))

/-- Every character of the ANSI-stripped output occurs in the input. -/
theorem mem_ansiSubGo (fuel : Nat) (s : List Nat) (c : Nat)
    (h : c ∈ ansiSubGo fuel s) : c ∈ s := by
  induction fuel generalizing s with
  | zero => exact h
  | succ fuel ih =>
    cases s with
    | nil => exact h
    | cons b rest =>
      unfold ansiSubGo at h
      cases hm : ansiMatch (b :: rest) with
      | some n =>
        rw [hm] at h
        exact List.mem_cons_of_mem b (List.drop_subset _ rest (ih _ h))
      | none =>
        rw [hm] at h
        rcases List.mem_cons.mp h with hc | hc
        · exact hc ▸ List.mem_cons_self b rest
        · exact List.mem_cons_of_mem b (ih rest hc)

/-- A match of the lazy artifact terminator contains a BEL. -/
theorem artTerm_some_mem (s : List Nat) (n : Nat) (h : artTerm s = some n) :
    7 ∈ s := by
  induction s generalizing n with
  | nil => simp [artTerm] at h
  | cons c rest ih =>
    unfold artTerm at h
    by_cases hc : c = 7
    · exact hc ▸ List.mem_cons_self c rest
    · rw [if_neg hc] at h
      by_cases hn : c = 10
      · rw [if_pos hn] at h
        exact absurd h (by simp)
      · rw [if_neg hn] at h
        cases ht : artTerm rest with
        | none => rw [ht] at h; exact absurd h (by simp)
        | some k => exact List.mem_cons_of_mem c (ih k ht)

/-- A match of the artifact pattern contains a BEL. -/
theorem artMatch_some_mem (s : List Nat) (n : Nat) (h : artMatch s = some n) :
    7 ∈ s := by
  match s with
  | [] => simp [artMatch] at h
  | [a] => simp [artMatch] at h
  | [a, b] => simp [artMatch] at h
  | [a, b, c] => simp [artMatch] at h
  | [a, b, c, d] => simp [artMatch] at h
  | [a, b, c, d, u] => simp [artMatch] at h
  | a :: b :: c :: d :: u :: e :: rest =>
    simp only [artMatch] at h
    by_cases hc : a = 49 ∧ b = 51 ∧ c = 51 ∧ d = 59 ∧ 65 ≤ u ∧ u ≤ 90 ∧ e = 59
    · rw [if_pos hc] at h
      cases ht : artTerm rest with
      | none => rw [ht] at h; exact absurd h (by simp)
      | some k =>
        have : 7 ∈ rest := artTerm_some_mem rest k ht
        simp [this]
    · rw [if_neg hc] at h
      exact absurd h (by simp)

/-- Removing artifacts from BEL-free input changes nothing. -/
theorem artSubGo_id (fuel : Nat) (s : List Nat) (h : 7 ∉ s) :
    artSubGo fuel s = s := by
  induction fuel generalizing s with
  | zero => rfl
  | succ fuel ih =>
    cases s with
    | nil => rfl
    | cons b rest =>
      have hm : artMatch (b :: rest) = none := by
        cases hm : artMatch (b :: rest) with
        | none => rfl
        | some n => exact absurd (artMatch_some_mem _ n hm) h
      unfold artSubGo
      rw [hm]
      exact congrArg (b :: ·) (ih rest (fun hmem => h (List.mem_cons_of_mem b hmem)))

/-- Every character of the artifact-stripped output occurs in the input. -/
theorem mem_artSubGo (fuel : Nat) (s : List Nat) (c : Nat)
    (h : c ∈ artSubGo fuel s) : c ∈ s := by
  induction fuel generalizing s with
  | zero => exact h
  | succ fuel ih =>
    cases s with
    | nil => exact h
    | cons b rest =>
      unfold artSubGo at h
      cases hm : artMatch (b :: rest) with
      | some n =>
        rw [hm] at h
        exact List.mem_cons_of_mem b (List.drop_subset _ rest (ih _ h))
      | none =>
        rw [hm] at h
        rcases List.mem_cons.mp h with hc | hc
        · exact hc ▸ List.mem_cons_self b rest
        · exact List.mem_cons_of_mem b (ih rest hc)

/-- Replacing CR LF pairs in CR-free input changes nothing. -/
theorem replaceCRLF_id (s : List Nat) (h : 13 ∉ s) : replaceCRLF s = s := by
  induction s using replaceCRLF.induct with
  | case1 => rfl
  | case2 c => rfl
  | case3 c c2 rest2 hc ih =>
    exact absurd (hc.1 ▸ List.mem_cons_self c (c2 :: rest2)) h
  | case4 c c2 rest2 hc ih =>
    unfold replaceCRLF
    rw [if_neg hc]
    exact congrArg (c :: ·) (ih (fun hm => h (List.mem_cons_of_mem c hm)))

/-- Mapping the CR-to-LF substitution over CR-free input changes nothing. -/
theorem map_crToLf_id (s : List Nat) (h : 13 ∉ s) : List.map crToLf s = s := by
  induction s with
  | nil => rfl
  | cons c rest ih =>
    have hc : c ≠ 13 := fun hc => h (hc ▸ List.mem_cons_self c rest)
    simp only [List.map_cons, crToLf, if_neg hc]
    exact congrArg (c :: ·) (ih (fun hm => h (List.mem_cons_of_mem c hm)))

/-- Every character of `replaceCRLF` output is an LF or occurs in the input. -/
theorem mem_replaceCRLF (s : List Nat) (c : Nat) (h : c ∈ replaceCRLF s) :
    c = 10 ∨ c ∈ s := by
  induction s using replaceCRLF.induct with
  | case1 => exact Or.inr h
  | case2 d => exact Or.inr h
  | case3 d d2 rest2 hd ih =>
    unfold replaceCRLF at h
    rw [if_pos hd] at h
    rcases List.mem_cons.mp h with hc | hc
    · exact Or.inl hc
    · rcases ih hc with hc | hc
      · exact Or.inl hc
      · exact Or.inr (List.mem_cons_of_mem d (List.mem_cons_of_mem d2 hc))
  | case4 d d2 rest2 hd ih =>
    unfold replaceCRLF at h
    rw [if_neg hd] at h
    rcases List.mem_cons.mp h with hc | hc
    · exact Or.inr (hc ▸ List.mem_cons_self d (d2 :: rest2))
    · rcases ih hc with hc | hc
      · exact Or.inl hc
      · exact Or.inr (List.mem_cons_of_mem d hc)

/-- Every value produced by one decode step is a Unicode scalar value. -/
theorem utf8Step_scalar (b : Nat) (rest : List Nat) :
    (utf8Step b rest).1 < 1114112 ∧
    ((utf8Step b rest).1 < 55296 ∨ 57343 < (utf8Step b rest).1) := by
  unfold utf8Step
  repeat' split
  all_goals simp_all [isCont]
  all_goals omega

/-- Decoding an ASCII byte. -/
theorem utf8Step_enc1 (c : Nat) (h : c ≤ 127) (bs : List Nat) :
    utf8Step c bs = (c, 0) := by
  unfold utf8Step
  rw [if_pos h]

/-- Decoding the two-byte encoding of a code point in 0x80..0x7FF. -/
theorem utf8Step_enc2 (c : Nat) (h1 : 128 ≤ c) (h2 : c ≤ 2047) (bs : List Nat) :
    utf8Step (192 + c / 64) ((128 + c % 64) :: bs) = (c, 1) := by
  unfold utf8Step
  rw [if_neg (by omega), if_pos (by omega : 194 ≤ 192 + c / 64 ∧ 192 + c / 64 ≤ 223)]
  try dsimp only
  rw [if_pos (by simp only [isCont, decide_eq_true_eq]; omega)]
  simp only [Prod.mk.injEq, and_true]
  omega

/-- Decoding the three-byte encoding of a non-surrogate code point in
0x800..0xFFFF. -/
theorem utf8Step_enc3 (c : Nat) (h1 : 2048 ≤ c) (h2 : c ≤ 65535)
    (h3 : c < 55296 ∨ 57343 < c) (bs : List Nat) :
    utf8Step (224 + c / 4096) ((128 + c / 64 % 64) :: (128 + c % 64) :: bs) = (c, 2) := by
  unfold utf8Step
  rw [if_neg (by omega), if_neg (by omega),
    if_pos (by omega : 224 ≤ 224 + c / 4096 ∧ 224 + c / 4096 ≤ 239)]
  try dsimp only
  rw [if_pos ?hcond]
  case hcond =>
    constructor
    · by_cases hb : 224 + c / 4096 = 224
      · rw [if_pos hb]; omega
      · rw [if_neg hb]; omega
    · by_cases hb : 224 + c / 4096 = 237
      · rw [if_pos hb]; omega
      · rw [if_neg hb]; omega
  try dsimp only
  rw [if_pos (by simp only [isCont, decide_eq_true_eq]; omega)]
  simp only [Prod.mk.injEq, and_true]
  omega

/-- Decoding the four-byte encoding of a code point in 0x10000..0x10FFFF. -/
theorem utf8Step_enc4 (c : Nat) (h1 : 65536 ≤ c) (h2 : c ≤ 1114111) (bs : List Nat) :
    utf8Step (240 + c / 262144)
      ((128 + c / 4096 % 64) :: (128 + c / 64 % 64) :: (128 + c % 64) :: bs) = (c, 3) := by
  unfold utf8Step
  rw [if_neg (by omega), if_neg (by omega), if_neg (by omega),
    if_pos (by omega : 240 ≤ 240 + c / 262144 ∧ 240 + c / 262144 ≤ 244)]
  try dsimp only
  rw [if_pos ?hcond]
  case hcond =>
    constructor
    · by_cases hb : 240 + c / 262144 = 240
      · rw [if_pos hb]; omega
      · rw [if_neg hb]; omega
    · by_cases hb : 240 + c / 262144 = 244
      · rw [if_pos hb]; omega
      · rw [if_neg hb]; omega
  try dsimp only
  rw [if_pos (by simp only [isCont, decide_eq_true_eq]; omega)]
  try dsimp only
  rw [if_pos (by simp only [isCont, decide_eq_true_eq]; omega)]
  simp only [Prod.mk.injEq, and_true]
  omega

/-- Unfolding one step of the decode worker. -/
theorem utf8DecodeGo_cons (fuel b : Nat) (rest : List Nat) :
    utf8DecodeGo (fuel + 1) (b :: rest)
      = (utf8Step b rest).1 :: utf8DecodeGo fuel (rest.drop (utf8Step b rest).2) := rfl

/-- The decode worker ignores the exact fuel once it covers the input. -/
theorem utf8DecodeGo_fuel (f1 f2 : Nat) (s : List Nat)
    (h1 : s.length ≤ f1) (h2 : s.length ≤ f2) :
    utf8DecodeGo f1 s = utf8DecodeGo f2 s := by
  induction f1 generalizing f2 s with
  | zero =>
    have hs : s = [] := List.length_eq_zero.mp (by omega)
    subst hs
    cases f2 <;> rfl
  | succ f1 ih =>
    cases s with
    | nil => cases f2 <;> rfl
    | cons b rest =>
      cases f2 with
      | zero => simp at h2
      | succ f2 =>
        rw [utf8DecodeGo_cons, utf8DecodeGo_cons]
        simp only [List.length_cons] at h1 h2
        have hd : (rest.drop (utf8Step b rest).2).length ≤ rest.length := by
          rw [List.length_drop]; omega
        exact congrArg _ (ih f2 (rest.drop (utf8Step b rest).2) (by omega) (by omega))

/-- Decoding the encoding of one scalar recovers it exactly. -/
theorem utf8Decode_encChar (c : Nat) (hc : ScalarCP c) (bs : List Nat) :
    utf8Decode (utf8EncodeChar c ++ bs) = c :: utf8Decode bs := by
  obtain ⟨hlt, hsur⟩ := hc
  unfold utf8Decode
  by_cases h1 : c ≤ 127
  · rw [utf8EncodeChar, if_pos h1]
    show utf8DecodeGo (bs.length + 1) (c :: bs) = c :: utf8DecodeGo bs.length bs
    rw [utf8DecodeGo_cons, utf8Step_enc1 c h1, List.drop_zero]
  · by_cases h2 : c ≤ 2047
    · rw [utf8EncodeChar, if_neg h1, if_pos h2]
      show utf8DecodeGo (bs.length + 2) ((192 + c / 64) :: (128 + c % 64) :: bs)
        = c :: utf8DecodeGo bs.length bs
      rw [utf8DecodeGo_cons, utf8Step_enc2 c (by omega) h2 bs]
      rw [show ((128 + c % 64) :: bs).drop (c, 1).2 = bs from rfl]
      exact congrArg _ (utf8DecodeGo_fuel _ _ bs (by omega) (by omega))
    · by_cases h3 : c ≤ 65535
      · rw [utf8EncodeChar, if_neg h1, if_neg h2, if_pos h3]
        show utf8DecodeGo (bs.length + 3)
            ((224 + c / 4096) :: (128 + c / 64 % 64) :: (128 + c % 64) :: bs)
          = c :: utf8DecodeGo bs.length bs
        rw [utf8DecodeGo_cons, utf8Step_enc3 c (by omega) h3 (by omega) bs]
        rw [show ((128 + c / 64 % 64) :: (128 + c % 64) :: bs).drop (c, 2).2 = bs from rfl]
        exact congrArg _ (utf8DecodeGo_fuel _ _ bs (by omega) (by omega))
      · rw [utf8EncodeChar, if_neg h1, if_neg h2, if_neg h3]
        show utf8DecodeGo (bs.length + 4)
            ((240 + c / 262144) :: (128 + c / 4096 % 64) :: (128 + c / 64 % 64) ::
              (128 + c % 64) :: bs)
          = c :: utf8DecodeGo bs.length bs
        rw [utf8DecodeGo_cons, utf8Step_enc4 c (by omega) (by omega) bs]
        rw [show ((128 + c / 4096 % 64) :: (128 + c / 64 % 64) :: (128 + c % 64) :: bs).drop
          (c, 3).2 = bs from rfl]
        exact congrArg _ (utf8DecodeGo_fuel _ _ bs (by omega) (by omega))

/-- Decoding the encoding of an all-scalar text, with trailing bytes. -/
theorem utf8Decode_enc_append (t : List Nat) (ht : ∀ c ∈ t, ScalarCP c) (bs : List Nat) :
    utf8Decode (utf8Encode t ++ bs) = t ++ utf8Decode bs := by
  induction t with
  | nil => simp [utf8Encode]
  | cons c t ih =>
    simp only [utf8Encode, List.append_assoc]
    rw [utf8Decode_encChar c (ht c (List.mem_cons_self c t)) (utf8Encode t ++ bs),
      ih (fun d hd => ht d (List.mem_cons_of_mem c hd))]
    rfl

/-- UTF-8 round-trip on all-scalar texts. -/
theorem utf8Decode_enc (t : List Nat) (ht : ∀ c ∈ t, ScalarCP c) :
    utf8Decode (utf8Encode t) = t := by
  have h := utf8Decode_enc_append t ht []
  rwa [List.append_nil, show utf8Decode [] = [] from rfl, List.append_nil] at h

/-- Every character produced by the decoder is a Unicode scalar value. -/
theorem mem_utf8DecodeGo_scalar (fuel : Nat) (s : List Nat) (c : Nat)
    (h : c ∈ utf8DecodeGo fuel s) : ScalarCP c := by
  induction fuel generalizing s with
  | zero => simp [utf8DecodeGo] at h
  | succ fuel ih =>
    cases s with
    | nil => simp [utf8DecodeGo] at h
    | cons b rest =>
      rw [utf8DecodeGo_cons] at h
      rcases List.mem_cons.mp h with hc | hc
      · exact hc ▸ utf8Step_scalar b rest
      · exact ih _ hc

/-- Encoding a character never yields the empty byte string. -/
theorem encodeChar_ne_nil (c : Nat) : utf8EncodeChar c ≠ [] := by
  unfold utf8EncodeChar
  repeat' split
  all_goals simp

/-- An encoded text is empty exactly when the text is. -/
theorem utf8Encode_eq_nil_iff (t : List Nat) : utf8Encode t = [] ↔ t = [] := by
  cases t with
  | nil => simp [utf8Encode]
  | cons c t =>
    simp only [utf8Encode]
    constructor
    · intro h
      exact absurd (List.append_eq_nil.mp h).1 (encodeChar_ne_nil c)
    · intro h
      exact absurd h (by simp)

/-- The encoding of a kept character contains no ESC byte. -/
theorem encodeChar_no_esc (c : Nat) (hc : isKeep c = true) : 27 ∉ utf8EncodeChar c := by
  simp only [isKeep, decide_eq_true_eq] at hc
  unfold utf8EncodeChar
  repeat' split
  all_goals simp
  all_goals omega

/-- The encoding of an all-kept text contains no ESC byte. -/
theorem encode_no_esc (t : List Nat) (ht : ∀ c ∈ t, isKeep c = true) :
    27 ∉ utf8Encode t := by
  induction t with
  | nil => simp [utf8Encode]
  | cons c t ih =>
    simp only [utf8Encode]
    intro h
    rcases List.mem_append.mp h with h | h
    · exact encodeChar_no_esc c (ht c (List.mem_cons_self c t)) h
    · exact ih (fun d hd => ht d (List.mem_cons_of_mem c hd)) h

/-- The sanitizer is the identity on the re-encoding of any text of kept
scalar characters: stripping, decoding, normalising and filtering all leave
it unchanged. -/
theorem sanitize_of_clean (t : List Nat) (hk : ∀ c ∈ t, isKeep c = true)
    (hs : ∀ c ∈ t, ScalarCP c) : sanitize (utf8Encode t) = t := by
  by_cases ht : t = []
  · subst ht; rfl
  · have hne : utf8Encode t ≠ [] := fun h => ht ((utf8Encode_eq_nil_iff t).mp h)
    unfold sanitize
    rw [if_neg hne]
    unfold ansiSub
    rw [ansiSubGo_id _ _ (encode_no_esc t hk), utf8Decode_enc t hs]
    have h13 : 13 ∉ t := fun h => by have := hk 13 h; simp [isKeep] at this
    have h7 : 7 ∉ t := fun h => by have := hk 7 h; simp [isKeep] at this
    rw [replaceCRLF_id t h13, map_crToLf_id t h13]
    unfold artSub
    rw [artSubGo_id _ _ h7]
    unfold keepPrintable
    exact List.filter_eq_self.mpr hk

/-- Every character of sanitized output passes the final filter. -/
theorem sanitize_clean_chars (x : List Nat) (c : Nat) (hc : c ∈ sanitize x) :
    isKeep c = true := by
  unfold sanitize at hc
  by_cases hx : x = []
  · rw [if_pos hx] at hc; exact absurd hc (List.not_mem_nil c)
  · rw [if_neg hx] at hc
    exact List.of_mem_filter hc

/-- Every character of sanitized output is a Unicode scalar value. -/
theorem sanitize_scalar_chars (x : List Nat) (c : Nat) (hc : c ∈ sanitize x) :
    ScalarCP c := by
  unfold sanitize at hc
  by_cases hx : x = []
  · rw [if_pos hx] at hc; exact absurd hc (List.not_mem_nil c)
  · rw [if_neg hx] at hc
    have h1 : c ∈ artSub (List.map crToLf (replaceCRLF (utf8Decode (ansiSub x)))) :=
      List.mem_of_mem_filter hc
    have h2 : c ∈ List.map crToLf (replaceCRLF (utf8Decode (ansiSub x))) :=
      mem_artSubGo _ _ c h1
    rcases List.mem_map.mp h2 with ⟨d, hd, hdc⟩
    by_cases hd13 : d = 13
    · have : c = 10 := by rw [← hdc, crToLf, if_pos hd13]
      exact this ▸ ⟨by omega, by omega⟩
    · have hcd : c = d := by rw [← hdc, crToLf, if_neg hd13]
      subst hcd
      rcases mem_replaceCRLF _ c hd with h10 | hmem
      · exact h10 ▸ ⟨by omega, by omega⟩
      · exact mem_utf8DecodeGo_scalar _ _ c hmem

/-- C6: sanitize is idempotent on its own output - re-encoding the sanitized
text and sanitizing again yields the same text. -/
theorem sanitize_idempotent (x : List Nat) :
    sanitize (utf8Encode (sanitize x)) = sanitize x :=
  sanitize_of_clean (sanitize x) (fun c hc => sanitize_clean_chars x c hc)
    (fun c hc => sanitize_scalar_chars x c hc)

/-- Witness for `send_control_byte`: the letter c, the digit 1, and the
sharp s exercise the three conditional branches. -/
theorem send_control_byte_witness :
    sendControl 99 = .byte (67 - 64) ∧ sendControl 49 = .silent ∧
    sendControl 223 = .typeError :=
  ⟨send_control_byte.1 99 67 (by decide) (by decide) (by decide),
   send_control_byte.2.1 49 49 (by decide) (by decide),
   send_control_byte.2.2.1 223 83 83 [] (by decide) (by decide) (by decide)⟩

end AGTerm
